import Mathlib

/-!
A verification development for the `providerutils` package of
`terraform-provider-ansible` (file `providerutils/utils.go`).

The Go code is shallowly embedded:
* Go strings are Lean `String`s; Go's byte-wise lexicographic string
  comparison coincides with code-point-wise comparison on UTF-8, which is
  what `charListLt` below implements.
* Go `map[string]T` values are association lists `List (String × T)`;
  the maps built internally by the inventory builder keep their keys
  `Nodup` by construction, and caller-supplied variable maps are read
  through `varKeys`/`varGetD`, which quotient an association list to the
  map of its bindings (first binding wins).
* `diag.Diagnostics` is a list of `Diagnostic` records.
* `interface{}` values are `TFValue`s; Go type assertions are the
  `TFValue.as*` projections.
* I/O collaborators (`os.CreateTemp`, `WriteString`) are explicit
  parameters; a nil-pointer dereference (Go panic) is modelled by an
  `Option` result being `none`.
-/

/-- Lexicographic (code-point-wise) comparison of character lists.
This is Go's built-in `<` on strings, which `sort.Strings` uses. -/
def charListLt : List Char → List Char → Bool
  | [], [] => false
  | [], _ :: _ => true
  | _ :: _, [] => false
  | a :: as, b :: bs =>
    if a.toNat < b.toNat then true
    else if b.toNat < a.toNat then false
    else charListLt as bs

/-- Boolean `≤` on Go strings: `a ≤ b` iff not `b < a`. -/
def strLeB (a b : String) : Bool := !(charListLt b.data a.data)

/-- The ordering relation `sort.Strings` sorts by (as a `Prop`). -/
def strLe (a b : String) : Prop := strLeB a b = true

instance strLe.decRel : DecidableRel strLe :=
  fun a b => inferInstanceAs (Decidable (strLeB a b = true))

/-- `sort.Strings` from the Go standard library: sorts a string slice in
ascending lexicographic order.  (Any correct sorting algorithm produces the
same list, so insertion sort is a faithful model.) -/
def sortStrings (l : List String) : List String := List.insertionSort strLe l


/-- The hexadecimal digit characters used by `strconv`'s `lowerhex`. -/
def hexDigitChar (n : Nat) : Char :=
  if n < 10 then Char.ofNat (48 + n) else Char.ofNat (87 + n)

/-- Value of a hexadecimal digit character (either case), if it is one. -/
def hexVal (c : Char) : Option Nat :=
  if 48 ≤ c.toNat ∧ c.toNat ≤ 57 then some (c.toNat - 48)
  else if 97 ≤ c.toNat ∧ c.toNat ≤ 102 then some (c.toNat - 87)
  else if 65 ≤ c.toNat ∧ c.toNat ≤ 70 then some (c.toNat - 55)
  else none

/-- The short escape sequences of `strconv.Quote` (`\a \b \f \n \r \t \v`),
keyed by code point. -/
def escQuoteChar (n : Nat) : Option (List Char) :=
  if n = 7 then some ['\\', 'a']
  else if n = 8 then some ['\\', 'b']
  else if n = 12 then some ['\\', 'f']
  else if n = 10 then some ['\\', 'n']
  else if n = 13 then some ['\\', 'r']
  else if n = 9 then some ['\\', 't']
  else if n = 11 then some ['\\', 'v']
  else none

/-- `strconv.IsPrint` restricted to one code point.  For ASCII the table is
exact (printable iff `0x20 ≤ c ≤ 0x7e`); for code points above `0x7f` the
Unicode range tables are abstracted as the parameter `p`. -/
def goIsPrint (p : Char → Bool) (c : Char) : Bool :=
  if c.toNat < 128 then decide (32 ≤ c.toNat ∧ c.toNat ≤ 126) else p c

/-- One character of `strconv.Quote`'s output (`appendEscapedRune` with
quote `"`, `ASCIIonly = false`, `graphicOnly = false`). -/
def quoteChar (p : Char → Bool) (c : Char) : List Char :=
  if c = '"' ∨ c = '\\' then ['\\', c]
  else if goIsPrint p c then [c]
  else
    match escQuoteChar c.toNat with
    | some esc => esc
    | none =>
      if c.toNat < 32 ∨ c.toNat = 127 then
        '\\' :: 'x' :: [hexDigitChar (c.toNat / 16), hexDigitChar (c.toNat % 16)]
      else if c.toNat < 65536 then
        '\\' :: 'u' :: [hexDigitChar (c.toNat / 4096 % 16), hexDigitChar (c.toNat / 256 % 16),
          hexDigitChar (c.toNat / 16 % 16), hexDigitChar (c.toNat % 16)]
      else
        '\\' :: 'U' :: [hexDigitChar (c.toNat / 268435456 % 16), hexDigitChar (c.toNat / 16777216 % 16),
          hexDigitChar (c.toNat / 1048576 % 16), hexDigitChar (c.toNat / 65536 % 16),
          hexDigitChar (c.toNat / 4096 % 16), hexDigitChar (c.toNat / 256 % 16),
          hexDigitChar (c.toNat / 16 % 16), hexDigitChar (c.toNat % 16)]

/-- `strconv.Quote`, with the Unicode printability table for code points
above `0x7f` abstracted as the parameter `p`. -/
def goQuoteWith (p : Char → Bool) (s : String) : String :=
  ⟨'"' :: (s.data.flatMap (quoteChar p) ++ ['"'])⟩

/-- Modelled from the spec: the printability classification of code points
above `0x7f` (Go's Unicode range tables, not reproduced here).  All inputs
relevant to the claims are ASCII, where `goIsPrint` is exact; the quoting
round-trip below is proved for every choice of this predicate. -/
def unicodePrintable : Char → Bool := fun _ => true

/-- `strconv.Quote` as called by the inventory formatting helpers. -/
def strconvQuote (s : String) : String := goQuoteWith unicodePrintable s

/-- The decoding of one escape letter of the quoting convention. -/
def escUnquoteChar (e : Char) : Option Char :=
  if e = '"' then some '"'
  else if e = '\\' then some '\\'
  else if e = 'a' then some (Char.ofNat 7)
  else if e = 'b' then some (Char.ofNat 8)
  else if e = 'f' then some (Char.ofNat 12)
  else if e = 'n' then some (Char.ofNat 10)
  else if e = 'r' then some (Char.ofNat 13)
  else if e = 't' then some (Char.ofNat 9)
  else if e = 'v' then some (Char.ofNat 11)
  else none

/-- Reads two hexadecimal digits; returns their value and the suffix. -/
def parseHex2 : List Char → Option (Nat × List Char) := fun l =>
  match l with
  | d1 :: d2 :: rest =>
    match hexVal d1, hexVal d2 with
    | some v1, some v2 => some (16 * v1 + v2, rest)
    | _, _ => none
  | _ => none

/-- Reads four hexadecimal digits; returns their value and the suffix. -/
def parseHex4 : List Char → Option (Nat × List Char) := fun l =>
  match l with
  | d1 :: d2 :: d3 :: d4 :: rest =>
    match hexVal d1, hexVal d2, hexVal d3, hexVal d4 with
    | some v1, some v2, some v3, some v4 =>
      some ((((16 * v1 + v2) * 16 + v3) * 16 + v4), rest)
    | _, _, _, _ => none
  | _ => none

/-- Reads eight hexadecimal digits; returns their value and the suffix. -/
def parseHex8 : List Char → Option (Nat × List Char) := fun l =>
  match l with
  | d1 :: d2 :: d3 :: d4 :: d5 :: d6 :: d7 :: d8 :: rest =>
    match hexVal d1, hexVal d2, hexVal d3, hexVal d4,
        hexVal d5, hexVal d6, hexVal d7, hexVal d8 with
    | some v1, some v2, some v3, some v4, some v5, some v6, some v7, some v8 =>
      some ((((((((16 * v1 + v2) * 16 + v3) * 16 + v4) * 16 + v5) *
        16 + v6) * 16 + v7) * 16 + v8), rest)
    | _, _, _, _, _, _, _, _ => none
  | _ => none

/-- Decoding of one escape sequence (everything after the backslash):
returns the decoded character and the unconsumed suffix. -/
def parseEscape : List Char → Option (Char × List Char) := fun l =>
  match l with
  | [] => none
  | e :: rest =>
    if e = 'x' then (parseHex2 rest).map (fun pr => (Char.ofNat pr.1, pr.2))
    else if e = 'u' then (parseHex4 rest).map (fun pr => (Char.ofNat pr.1, pr.2))
    else if e = 'U' then (parseHex8 rest).map (fun pr => (Char.ofNat pr.1, pr.2))
    else (escUnquoteChar e).map (fun c => (c, rest))

/-- Parses the body of a double-quoted literal (everything after the
opening `"`, including the closing `"`), producing one character per loop
step; the fuel argument only bounds the number of steps.  One unit is spent
per produced character and every step consumes at least one input
character, so any fuel at least the input length never runs out. -/
def unquoteBodyF : Nat → List Char → Option (List Char)
  | _, [] => none
  | 0, _ :: _ => none
  | fuel + 1, c :: rest =>
    if c = '"' then (if rest.isEmpty then some [] else none)
    else if c = '\\' then
      match parseEscape rest with
      | some (ec, rest2) => (unquoteBodyF fuel rest2).map (fun t => ec :: t)
      | none => none
    else (unquoteBodyF fuel rest).map (fun t => c :: t)

/-- Inverse of the escaping convention: parses the body of a double-quoted
literal. -/
def unquoteBody (l : List Char) : Option (List Char) := unquoteBodyF l.length l

/-- Un-quoting: inverse of the convention of `strconvQuote`. -/
def goUnquote (s : String) : Option String :=
  match s.data with
  | '"' :: rest => (unquoteBody rest).map (fun l => ⟨l⟩)
  | _ => none

/-- `diag.Severity` (only `Error` is ever used by the source). -/
inductive Severity where
  | error
  | warning
deriving DecidableEq

/-- One entry of `diag.Diagnostics`. -/
structure Diagnostic where
  severity : Severity
  summary : String
deriving DecidableEq

/-- Shorthand for the error diagnostics the source appends. -/
def errDiag (s : String) : Diagnostic := ⟨Severity.error, s⟩

/-- `providerutils.InventoryHost`. -/
structure InventoryHost where
  Name : String
  Groups : List String
  Variables : List (String × String)
deriving DecidableEq

/-- `providerutils.InventoryGroup`. -/
structure InventoryGroup where
  Name : String
  Children : List String
  Variables : List (String × String)
deriving DecidableEq

/-- `providerutils.DefaultHostGroup`. -/
def DefaultHostGroup : String := "default"

/-- A dynamically typed Go `interface{}` value, as far as the source
inspects one: a string, a `[]interface{}`, a `map[string]interface{}`, or
anything else (`other` also covers an absent map entry's `nil`). -/
inductive TFValue where
  | str : String → TFValue
  | list : List TFValue → TFValue
  | map : List (String × TFValue) → TFValue
  | other : TFValue

/-- Go type assertion `.(string)`. -/
def TFValue.asString : TFValue → Option String
  | .str s => some s
  | _ => none

/-- Go type assertion `.([]interface{})`. -/
def TFValue.asList : TFValue → Option (List TFValue)
  | .list l => some l
  | _ => none

/-- Go type assertion `.(map[string]interface{})`. -/
def TFValue.asMap : TFValue → Option (List (String × TFValue))
  | .map m => some m
  | _ => none

/-- Whether a dynamic value's type is `string`. -/
def TFValue.isStr : TFValue → Bool
  | .str _ => true
  | _ => false

/-- Indexing a Go `map[string]interface{}` (an absent key yields the nil
interface, which every type assertion rejects — hence `Option`). -/
def lookupTF (m : List (String × TFValue)) (k : String) : Option TFValue :=
  (m.find? (fun p => p.1 == k)).map (fun p => p.2)

/-- The distinct keys of a `map[string]string` modelled as an association
list (first binding wins). -/
def varKeys (m : List (String × String)) : List String :=
  (m.map (fun p => p.1)).dedup

/-- Indexing a `map[string]string`; Go's zero value `""` for absent keys. -/
def varGetD (m : List (String × String)) (k : String) : String :=
  ((m.find? (fun p => p.1 == k)).map (fun p => p.2)).getD ""

/-- `providerutils.InterfaceToString`.  Note that the zero value `""` is
appended to the result even when the type assertion fails: the loop has no
`continue`. -/
def InterfaceToString : List TFValue → List String × List Diagnostic
  | [] => ([], [])
  | v :: rest =>
    let head := match v with
      | .str s => (s, ([] : List Diagnostic))
      | _ => ("", [errDiag "Error: couldn\x27t parse value to string!"])
    let tail := InterfaceToString rest
    (head.1 :: tail.1, head.2 ++ tail.2)

/-- `providerutils.mapInterfaceToStringMap` (the Go map iteration order is
arbitrary; the association-list order stands in for it). -/
def mapInterfaceToStringMap : List (String × TFValue) → List (String × String) × List Diagnostic
  | [] => ([], [])
  | (k, v) :: rest =>
    let tail := mapInterfaceToStringMap rest
    match v.asString with
    | some s => ((k, s) :: tail.1, tail.2)
    | none => (tail.1, errDiag ("Couldn\x27t parse variable " ++ k ++ " to string") :: tail.2)

/-- Processing of one entry of `ExpandInventoryHosts`'s loop. -/
def expandHostEntry (entry : TFValue) : List InventoryHost × List Diagnostic :=
  match entry.asMap with
  | none => ([], [errDiag "Invalid host definition: expected map input"])
  | some entryMap =>
    match (lookupTF entryMap "name").bind TFValue.asString with
    | none => ([], [errDiag "Invalid host definition: missing \x27name\x27"])
    | some name =>
      if name = "" then ([], [errDiag "Invalid host definition: missing \x27name\x27"])
      else
        let groupsRaw := ((lookupTF entryMap "groups").bind TFValue.asList).getD []
        let groupsRes := InterfaceToString groupsRaw
        let varsRes := match (lookupTF entryMap "variables").bind TFValue.asMap with
          | some varsRaw => mapInterfaceToStringMap varsRaw
          | none => ([], [])
        ([⟨name, groupsRes.1, varsRes.1⟩], groupsRes.2 ++ varsRes.2)

/-- `providerutils.ExpandInventoryHosts`. -/
def ExpandInventoryHosts : List TFValue → List InventoryHost × List Diagnostic
  | [] => ([], [])
  | entry :: rest =>
    let head := expandHostEntry entry
    let tail := ExpandInventoryHosts rest
    (head.1 ++ tail.1, head.2 ++ tail.2)

/-- Processing of one entry of `ExpandInventoryGroups`'s loop. -/
def expandGroupEntry (entry : TFValue) : List InventoryGroup × List Diagnostic :=
  match entry.asMap with
  | none => ([], [errDiag "Invalid group definition: expected map input"])
  | some entryMap =>
    match (lookupTF entryMap "name").bind TFValue.asString with
    | none => ([], [errDiag "Invalid group definition: missing \x27name\x27"])
    | some name =>
      if name = "" then ([], [errDiag "Invalid group definition: missing \x27name\x27"])
      else
        let childrenRaw := ((lookupTF entryMap "children").bind TFValue.asList).getD []
        let childrenRes := InterfaceToString childrenRaw
        let varsRes := match (lookupTF entryMap "variables").bind TFValue.asMap with
          | some varsRaw => mapInterfaceToStringMap varsRaw
          | none => ([], [])
        ([⟨name, childrenRes.1, varsRes.1⟩], childrenRes.2 ++ varsRes.2)

/-- `providerutils.ExpandInventoryGroups`. -/
def ExpandInventoryGroups : List TFValue → List InventoryGroup × List Diagnostic
  | [] => ([], [])
  | entry :: rest =>
    let head := expandGroupEntry entry
    let tail := ExpandInventoryGroups rest
    (head.1 ++ tail.1, head.2 ++ tail.2)

/-- `providerutils.formatInventoryHostLine`. -/
def formatInventoryHostLine (hostname : String) (vars : List (String × String)) : String :=
  if varKeys vars = [] then hostname
  else
    hostname ++ String.join ((sortStrings (varKeys vars)).map
      (fun key => " " ++ key ++ "=" ++ strconvQuote (varGetD vars key)))

/-- `providerutils.formatInventoryVariables`. -/
def formatInventoryVariables (vars : List (String × String)) : String :=
  String.join ((sortStrings (varKeys vars)).map
    (fun key => key ++ "=" ++ strconvQuote (varGetD vars key) ++ "\n"))

/-- The builder-internal accumulation maps of `buildInventoryFileContent`
(`groupNames`, `groupHosts`, `groupVars`, `groupChildren`). -/
structure BuildState where
  groupNames : List String
  groupHosts : List (String × List String)
  groupVars : List (String × List (String × String))
  groupChildren : List (String × List String)
deriving DecidableEq

/-- The empty accumulation state. -/
def emptyState : BuildState := ⟨[], [], [], []⟩

/-- Registering a name in the `groupNames` set. -/
def insertName (names : List String) (g : String) : List String :=
  if g ∈ names then names else names ++ [g]

/-- Go map update `m[k] = v`. -/
def mapSet {α : Type} : List (String × α) → String → α → List (String × α)
  | [], k, v => [(k, v)]
  | p :: rest, k, v => if p.1 = k then (k, v) :: rest else p :: mapSet rest k v

/-- Go's `m[k] = append(m[k], v)` on a `map[string][]T`. -/
def mapAppend {α : Type} : List (String × List α) → String → α → List (String × List α)
  | [], k, v => [(k, [v])]
  | p :: rest, k, v =>
    if p.1 = k then (p.1, p.2 ++ [v]) :: rest else p :: mapAppend rest k v

/-- Reading a builder-internal map. -/
def mapGet {α : Type} (m : List (String × α)) (k : String) : Option α :=
  (m.find? (fun p => p.1 == k)).map (fun p => p.2)

/-- The group pre-pass of `buildInventoryFileContent`, one record: register
the name, store children and variables when non-empty. -/
def groupStepState (st : BuildState) (group : InventoryGroup) : BuildState :=
  if group.Name = "" then st
  else
    let st1 := { st with groupNames := insertName st.groupNames group.Name }
    let st2 := if group.Children ≠ [] then
        { st1 with groupChildren := mapSet st1.groupChildren group.Name group.Children }
      else st1
    if group.Variables ≠ [] then
      { st2 with groupVars := mapSet st2.groupVars group.Name group.Variables }
    else st2

/-- The diagnostic of one group record. -/
def groupStepDiag (group : InventoryGroup) : List Diagnostic :=
  if group.Name = "" then [errDiag "Inventory group is missing a name"] else []

/-- One iteration of the group pre-pass. -/
def groupStep (acc : BuildState × List Diagnostic) (group : InventoryGroup) :
    BuildState × List Diagnostic :=
  (groupStepState acc.1 group, acc.2 ++ groupStepDiag group)

/-- The effective membership of a host: `Groups`, or the default group. -/
def hostGroupsOf (host : InventoryHost) : List String :=
  if host.Groups = [] then [DefaultHostGroup] else host.Groups

/-- Registering one rendered host line under one group name (empty names
are skipped). -/
def addHostToGroup (line : String) (st : BuildState) (g : String) : BuildState :=
  if g = "" then st
  else { st with
    groupNames := insertName st.groupNames g,
    groupHosts := mapAppend st.groupHosts g line }

/-- The host pass of `buildInventoryFileContent`, one record. -/
def hostStepState (st : BuildState) (host : InventoryHost) : BuildState :=
  if host.Name = "" then st
  else (hostGroupsOf host).foldl
    (addHostToGroup (formatInventoryHostLine host.Name host.Variables)) st

/-- The diagnostic of one host record. -/
def hostStepDiag (host : InventoryHost) : List Diagnostic :=
  if host.Name = "" then [errDiag "Inventory host is missing a name"] else []

/-- One iteration of the host pass. -/
def hostStep (acc : BuildState × List Diagnostic) (host : InventoryHost) :
    BuildState × List Diagnostic :=
  (hostStepState acc.1 host, acc.2 ++ hostStepDiag host)

/-- The group pre-pass (first loop of `buildInventoryFileContent`). -/
def processGroups (groups : List InventoryGroup) : BuildState × List Diagnostic :=
  groups.foldl groupStep (emptyState, [])

/-- The host pass (second loop of `buildInventoryFileContent`). -/
def processHosts (hosts : List InventoryHost) (acc : BuildState × List Diagnostic) :
    BuildState × List Diagnostic :=
  hosts.foldl hostStep acc

/-- The accumulated state after both passes. -/
def finalState (hosts : List InventoryHost) (groups : List InventoryGroup) : BuildState :=
  (processHosts hosts (processGroups groups)).1

/-- The `[<group>]` heading, sorted host lines and blank separator line. -/
def hostBlock (st : BuildState) (g : String) : String :=
  String.join ((sortStrings ((mapGet st.groupHosts g).getD [])).map (fun l => l ++ "\n")) ++ "\n"

/-- The `[<group>:vars]` block (empty when the group has no variables). -/
def varsBlock (st : BuildState) (g : String) : String :=
  match mapGet st.groupVars g with
  | some vars =>
    if vars ≠ [] then "[" ++ g ++ ":vars]\n" ++ formatInventoryVariables vars ++ "\n" else ""
  | none => ""

/-- The `[<group>:children]` block (empty when the group has no children). -/
def childrenBlock (st : BuildState) (g : String) : String :=
  match mapGet st.groupChildren g with
  | some children =>
    if children ≠ [] then
      "[" ++ g ++ ":children]\n" ++
        String.join ((sortStrings children).map (fun c => c ++ "\n")) ++ "\n"
    else ""
  | none => ""

/-- The text emitted for one group of the sorted group-name list. -/
def renderSection (st : BuildState) (g : String) : String :=
  "[" ++ g ++ "]\n" ++ hostBlock st g ++ varsBlock st g ++ childrenBlock st g

/-- The rendering loop of `buildInventoryFileContent`. -/
def renderInventory (st : BuildState) : String :=
  String.join ((sortStrings st.groupNames).map (renderSection st))

/-- `providerutils.buildInventoryFileContent`. -/
def buildInventoryFileContent (hosts : List InventoryHost) (groups : List InventoryGroup) :
    String × List Diagnostic :=
  let acc := processHosts hosts (processGroups groups)
  (renderInventory acc.1, acc.2)

/-- The `*os.File` handle returned by `os.CreateTemp`, reduced to what the
source reads from it. -/
structure TempFile where
  name : String
deriving DecidableEq

/-- The default-host synthesis block of `BuildPlaybookInventory` (executed
when the explicit host list is empty). -/
def synthesizeHosts (hostname : String) (port : Int) (hostgroups : List TFValue) :
    List InventoryHost × List Diagnostic :=
  let conv := InterfaceToString hostgroups
  let hostGroups := if conv.1 = [] then [DefaultHostGroup] else conv.1
  let hostVars : List (String × String) :=
    if port ≠ -1 then [("ansible_port", toString port)] else []
  ([⟨hostname, hostGroups, hostVars⟩], conv.2)

/-- `providerutils.BuildPlaybookInventory`.  The filesystem collaborators
are explicit parameters: `createTempResult` is what `os.CreateTemp`
returned, `writeError` the failure of `WriteString`, if any.  The result is
`none` when the Go original panics (it dereferences the nil `*os.File`
returned by a failed `os.CreateTemp` via `fileInfo.Name()`), otherwise
`some` of the returned path, the diagnostics, and the written content. -/
def BuildPlaybookInventory (createTempResult : Except String TempFile)
    (writeError : Option String) (inventoryDest hostname : String) (port : Int)
    (hostgroups : List TFValue) (inventoryHosts : List InventoryHost)
    (inventoryGroups : List InventoryGroup) :
    Option (String × List Diagnostic × String) :=
  match createTempResult with
  | .error _ => none
  | .ok fileInfo =>
    let tempFileName := fileInfo.name
    let hostsRes := if inventoryHosts = [] then synthesizeHosts hostname port hostgroups
      else (inventoryHosts, [])
    let buildRes := buildInventoryFileContent hostsRes.1 inventoryGroups
    let writeDiags := match writeError with
      | some e => [errDiag ("Fail to write inventory: " ++ e)]
      | none => []
    some (tempFileName, (hostsRes.2 ++ buildRes.2) ++ writeDiags, buildRes.1)


theorem charListLt_asymm : ∀ {x y : List Char},
    charListLt x y = true → charListLt y x = false := by
  intro x
  induction x with
  | nil =>
    intro y h
    cases y with
    | nil => simp [charListLt] at h
    | cons b bs => simp [charListLt]
  | cons a as ih =>
    intro y h
    cases y with
    | nil => simp [charListLt] at h
    | cons b bs =>
      simp only [charListLt] at h ⊢
      by_cases hab : a.toNat < b.toNat
      · have hba : ¬ b.toNat < a.toNat := by omega
        simp [hab, hba]
      · by_cases hba : b.toNat < a.toNat
        · simp [hab, hba] at h
        · simp only [hab, hba, if_false] at h
          simp [hab, hba, ih h]

theorem charListLt_trans : ∀ {x y z : List Char},
    charListLt x y = true → charListLt y z = true → charListLt x z = true := by
  intro x
  induction x with
  | nil =>
    intro y z hxy hyz
    cases y with
    | nil => simp [charListLt] at hxy
    | cons b bs =>
      cases z with
      | nil => simp [charListLt] at hyz
      | cons c cs => simp [charListLt]
  | cons a as ih =>
    intro y z hxy hyz
    cases y with
    | nil => simp [charListLt] at hxy
    | cons b bs =>
      cases z with
      | nil => simp [charListLt] at hyz
      | cons c cs =>
        simp only [charListLt] at hxy hyz ⊢
        by_cases hab : a.toNat < b.toNat
        · by_cases hbc : b.toNat < c.toNat
          · have : a.toNat < c.toNat := by omega
            simp [this]
          · by_cases hcb : c.toNat < b.toNat
            · simp [hab, hbc, hcb] at hyz
            · have hbceq : b.toNat = c.toNat := by omega
              have : a.toNat < c.toNat := by omega
              simp [this]
        · by_cases hba : b.toNat < a.toNat
          · simp [hab, hba] at hxy
          · have habeq : a.toNat = b.toNat := by omega
            simp only [hab, hba, if_false] at hxy
            by_cases hbc : b.toNat < c.toNat
            · have : a.toNat < c.toNat := by omega
              simp [this]
            · by_cases hcb : c.toNat < b.toNat
              · simp [hbc, hcb] at hyz
              · simp only [hbc, hcb, if_false] at hyz
                have hac : ¬ a.toNat < c.toNat := by omega
                have hca : ¬ c.toNat < a.toNat := by omega
                simp [hac, hca, ih hxy hyz]

theorem charListLt_eq_of_not : ∀ {x y : List Char},
    charListLt x y = false → charListLt y x = false → x = y := by
  intro x
  induction x with
  | nil =>
    intro y hxy _
    cases y with
    | nil => rfl
    | cons b bs => simp [charListLt] at hxy
  | cons a as ih =>
    intro y hxy hyx
    cases y with
    | nil => simp [charListLt] at hyx
    | cons b bs =>
      simp only [charListLt] at hxy hyx
      by_cases hab : a.toNat < b.toNat
      · simp [hab] at hxy
      · by_cases hba : b.toNat < a.toNat
        · simp [hba, hab] at hyx
        · simp only [hab, hba, if_false] at hxy hyx
          have hval : a = b := by
            have : a.toNat = b.toNat := by omega
            exact Char.ext (UInt32.ext this)
          rw [hval, ih hxy hyx]

theorem strLe_total : ∀ a b, strLe a b ∨ strLe b a := by
    intro a b
    by_cases h : charListLt b.data a.data = true
    · right
      simp [strLe, strLeB, charListLt_asymm h]
    · left
      simp only [Bool.not_eq_true] at h
      simp [strLe, strLeB, h]

theorem strLe_trans : ∀ a b c, strLe a b → strLe b c → strLe a c := by
    intro a b c hab hbc
    simp only [strLe, strLeB, Bool.not_eq_true'] at hab hbc ⊢
    by_contra hca
    simp only [Bool.not_eq_false] at hca
    by_cases hcb : charListLt c.data b.data = true
    · simp [hcb] at hbc
    · simp only [Bool.not_eq_true] at hcb
      by_cases hbc2 : charListLt b.data c.data = true
      · have := charListLt_trans hbc2 hca
        simp [this] at hab
      · simp only [Bool.not_eq_true] at hbc2
        have : b.data = c.data := charListLt_eq_of_not hbc2 hcb
        have hbceq : b = c := by
          cases b; cases c; exact congrArg String.mk this
        subst hbceq
        simp [hca] at hab

theorem sortStrings_sorted (l : List String) : List.Sorted strLe (sortStrings l) :=
  @List.sorted_insertionSort String strLe strLe.decRel ⟨strLe_total⟩ ⟨strLe_trans⟩ l

theorem sortStrings_perm (l : List String) : List.Perm (sortStrings l) l :=
  List.perm_insertionSort strLe l

theorem sortStrings_singleton (a : String) : sortStrings [a] = [a] := rfl
/-- C1: the claim says that when `os.CreateTemp` fails the function appends
an I/O diagnostic, still returns a file path and does not panic.  The code
disagrees: after appending the diagnostic it calls `fileInfo.Name()` on the
nil `*os.File` returned by the failed `os.CreateTemp`, a nil-pointer
dereference, i.e. a Go runtime panic (modelled as `none`): nothing is
returned to the caller. -/
theorem claim_c1_createTemp_failure_panics (e : String) (writeError : Option String)
    (inventoryDest hostname : String) (port : Int) (hostgroups : List TFValue)
    (inventoryHosts : List InventoryHost) (inventoryGroups : List InventoryGroup) :
    BuildPlaybookInventory (.error e) writeError inventoryDest hostname port hostgroups
      inventoryHosts inventoryGroups = none := rfl

/-- C2: for the input of exactly one group `{name: web, variables:
{ansible_user: deploy}}` and one host `{name: node1, groups: [web]}`, the
content builder returns exactly the expected text and an empty diagnostics
list. -/
theorem claim_c2_single_group_scenario :
    buildInventoryFileContent [⟨"node1", ["web"], []⟩]
        [⟨"web", [], [("ansible_user", "deploy")]⟩]
      = ("[web]\nnode1\n\n[web:vars]\nansible_user=\"deploy\"\n\n", []) := rfl

/-- C6 counterexample: for the input consisting of one non-string element,
`InterfaceToString` emits one diagnostic, but the returned list is `[""]`
(the loop appends the zero value of the failed type assertion; it has no
`continue`), not the empty list of successfully-converted elements the
claim requires. -/
theorem claim_c6_counterexample :
    (InterfaceToString [TFValue.other]).1 = [""] ∧
    (InterfaceToString [TFValue.other]).1 ≠ ([] : List String) ∧
    (InterfaceToString [TFValue.other]).2
      = [errDiag "Error: couldn\x27t parse value to string!"] :=
  ⟨rfl, by decide, rfl⟩

/-- C6 (amended): `InterfaceToString` emits exactly one error diagnostic
per non-string element, and returns exactly one string per input element —
the element itself for strings, the zero value `""` for non-string
elements. -/
theorem claim_c6_amended (arr : List TFValue) :
    (InterfaceToString arr).1
        = arr.map (fun v => match v with | .str s => s | _ => "") ∧
    (InterfaceToString arr).2
        = (arr.filter (fun v => !v.isStr)).map
            (fun _ => errDiag "Error: couldn\x27t parse value to string!") := by
  induction arr with
  | nil => exact ⟨rfl, rfl⟩
  | cons v rest ih =>
    cases v <;>
      simp [InterfaceToString, TFValue.isStr, ih.1, ih.2]

/-- C8: with an empty explicit host list, exactly one synthetic host named
by the fallback hostname is built; a port other than the sentinel `-1`
becomes the variable `ansible_port` rendered as a plain decimal string,
the sentinel yields no variable; an empty fallback group list puts the
host in the single group `"default"`.  Concretely, hostname `10.0.0.5`,
port `22` and an empty group list produce the line
`10.0.0.5 ansible_port="22"` under the `[default]` heading. -/
theorem claim_c8_default_host_synthesis (hostname : String) (port : Int) :
    (port ≠ -1 → synthesizeHosts hostname port [] =
      ([⟨hostname, [DefaultHostGroup], [("ansible_port", toString port)]⟩], [])) ∧
    synthesizeHosts hostname (-1) [] = ([⟨hostname, [DefaultHostGroup], []⟩], []) ∧
    BuildPlaybookInventory (.ok ⟨"/tmp/inventory123"⟩) none "inventory" "10.0.0.5" 22 [] [] []
      = some ("/tmp/inventory123", [], "[default]\n10.0.0.5 ansible_port=\"22\"\n\n") := by
  refine ⟨fun hp => ?_, ?_, rfl⟩
  · simp [synthesizeHosts, InterfaceToString, hp]
  · simp [synthesizeHosts, InterfaceToString]

/-- Witness for C8 at hostname `10.0.0.5` and port `22`. -/
theorem claim_c8_default_host_synthesis_witness :
    (22 : Int) ≠ -1 ∧
    synthesizeHosts "10.0.0.5" 22 [] =
      ([⟨"10.0.0.5", [DefaultHostGroup], [("ansible_port", toString (22 : Int))]⟩], []) :=
  ⟨by decide, (claim_c8_default_host_synthesis "10.0.0.5" 22).1 (by decide)⟩

/-- C10: in `ExpandInventoryHosts` and `ExpandInventoryGroups`, an entry
whose `groups`/`children` field is present but not an array, or whose
`variables` field is present but not a map, is treated exactly as if the
field were absent: no diagnostic, and the record carries an empty sequence
(resp. an empty variable map) for that field. -/
theorem claim_c10_nonarray_nonmap_fields_ignored (n : String) (v w : TFValue)
    (hn : n ≠ "") (hv : v.asList = none) (hw : w.asMap = none) :
    ExpandInventoryHosts [.map [("name", .str n), ("groups", v), ("variables", w)]]
        = ExpandInventoryHosts [.map [("name", .str n)]] ∧
    ExpandInventoryHosts [.map [("name", .str n), ("groups", v), ("variables", w)]]
        = ([⟨n, [], []⟩], []) ∧
    ExpandInventoryGroups [.map [("name", .str n), ("children", v), ("variables", w)]]
        = ExpandInventoryGroups [.map [("name", .str n)]] ∧
    ExpandInventoryGroups [.map [("name", .str n), ("children", v), ("variables", w)]]
        = ([⟨n, [], []⟩], []) := by
  cases v <;> cases w <;>
    first
      | (simp [TFValue.asList] at hv; done)
      | (simp [TFValue.asMap] at hw; done)
      | refine ⟨?_, ?_, ?_, ?_⟩ <;>
          simp [ExpandInventoryHosts, expandHostEntry, ExpandInventoryGroups, expandGroupEntry,
            lookupTF, TFValue.asMap, TFValue.asString, TFValue.asList, InterfaceToString, hn,
            List.find?]

/-- Witness for C10 at a concrete entry whose `groups`/`children` field is
a non-array and whose `variables` field is a non-map. -/
theorem claim_c10_nonarray_nonmap_fields_ignored_witness :
    ("node" : String) ≠ "" ∧ TFValue.other.asList = none ∧ TFValue.other.asMap = none ∧
    ExpandInventoryHosts
        [.map [("name", .str "node"), ("groups", .other), ("variables", .other)]]
      = ([⟨"node", [], []⟩], []) :=
  ⟨by decide, rfl, rfl,
    (claim_c10_nonarray_nonmap_fields_ignored "node" .other .other
      (by decide) rfl rfl).2.1⟩

theorem strEmptyAppend (s : String) : "" ++ s = s := by
  obtain ⟨d⟩ := s
  rfl

theorem strAppendEmpty (s : String) : s ++ "" = s := by
  obtain ⟨d⟩ := s
  exact congrArg String.mk (List.append_nil d)

theorem strAppendAssoc (a b c : String) : a ++ b ++ c = a ++ (b ++ c) := by
  obtain ⟨x⟩ := a
  obtain ⟨y⟩ := b
  obtain ⟨z⟩ := c
  exact congrArg String.mk (List.append_assoc x y z)

theorem strJoinNil : String.join ([] : List String) = "" := rfl

theorem strJoinCons (s : String) (l : List String) :
    String.join (s :: l) = s ++ String.join l := by
  rw [String.join_eq, String.join_eq]
  obtain ⟨d⟩ := s
  rfl

theorem foldl_addHost_all_empty (line : String) :
    ∀ (gs : List String) (st : BuildState), (∀ g ∈ gs, g = "") →
      gs.foldl (addHostToGroup line) st = st := by
  intro gs
  induction gs with
  | nil => intro st _; rfl
  | cons g rest ih =>
    intro st hall
    have hg : g = "" := hall g (List.mem_cons_self g rest)
    have hrest : ∀ x ∈ rest, x = "" := fun x hx => hall x (List.mem_cons_of_mem g hx)
    simp only [List.foldl_cons, addHostToGroup, hg, if_pos rfl]
    exact ih st hrest

theorem hostStepState_skip (st : BuildState) (h : InventoryHost) (hn : h.Name ≠ "")
    (hne : h.Groups ≠ []) (hall : ∀ g ∈ h.Groups, g = "") :
    hostStepState st h = st := by
  rw [hostStepState, if_neg hn, hostGroupsOf, if_neg hne]
  exact foldl_addHost_all_empty _ h.Groups st hall

theorem hostStep_skip (acc : BuildState × List Diagnostic) (h : InventoryHost)
    (hn : h.Name ≠ "") (hne : h.Groups ≠ []) (hall : ∀ g ∈ h.Groups, g = "") :
    hostStep acc h = acc := by
  rw [hostStep, hostStepState_skip acc.1 h hn hne hall, hostStepDiag, if_neg hn,
    List.append_nil]

/-- C9: a host with a non-empty name whose group list is non-empty but
consists solely of empty strings draws no diagnostic and leaves no trace in
the output: inserting such a host anywhere in the host list leaves the
result of the content builder unchanged, and with such a host alone the
builder returns the empty document and no diagnostics — the host is
silently dropped (the default-group fallback fires only on an empty
`Groups` list, and empty group names are skipped unreported). -/
theorem claim_c9_empty_group_names_drop_host (pre post : List InventoryHost)
    (groups : List InventoryGroup) (h : InventoryHost) (hn : h.Name ≠ "")
    (hne : h.Groups ≠ []) (hall : ∀ g ∈ h.Groups, g = "") :
    buildInventoryFileContent (pre ++ h :: post) groups
        = buildInventoryFileContent (pre ++ post) groups ∧
    buildInventoryFileContent [h] [] = ("", []) := by
  constructor
  · simp only [buildInventoryFileContent, processHosts, List.foldl_append, List.foldl_cons,
      hostStep_skip _ h hn hne hall]
  · have hstep : processHosts [h] (processGroups []) = (emptyState, []) := by
      simp only [processHosts, processGroups, List.foldl_nil, List.foldl_cons,
        hostStep_skip _ h hn hne hall]
    simp [buildInventoryFileContent, hstep, renderInventory, sortStrings, strJoinNil]

/-- Witness for C9 at the host `{Name: node, Groups: [""]}`. -/
theorem claim_c9_empty_group_names_drop_host_witness :
    ("node" : String) ≠ "" ∧ ([""] : List String) ≠ [] ∧ (∀ g ∈ ([""] : List String), g = "") ∧
    buildInventoryFileContent [⟨"node", [""], []⟩] [] = ("", []) :=
  ⟨by decide, by decide, by decide,
    (claim_c9_empty_group_names_drop_host [] [] [] ⟨"node", [""], []⟩
      (by decide) (by decide) (by decide)).2⟩

theorem singleHostState (name : String) (vars : List (String × String)) (gs : List String)
    (g : String) (hn : name ≠ "") (hg : hostGroupsOf ⟨name, gs, vars⟩ = [g]) (hge : g ≠ "") :
    processHosts [⟨name, gs, vars⟩] (processGroups [])
      = (⟨[g], [(g, [formatInventoryHostLine name vars])], [], []⟩, []) := by
  simp [processHosts, processGroups, hostStep, hostStepState, hostStepDiag, hn, hg,
    addHostToGroup, hge, insertName, mapAppend, emptyState]

theorem renderSingle (g line : String) :
    renderInventory ⟨[g], [(g, [line])], [], []⟩
      = "[" ++ g ++ "]\n" ++ (line ++ "\n") ++ "\n" := by
  simp only [renderInventory, sortStrings_singleton, List.map_cons, List.map_nil,
    strJoinCons, strJoinNil, renderSection, hostBlock, varsBlock, childrenBlock, mapGet,
    List.find?, beq_self_eq_true, Option.map_some, Option.getD_some, Option.map_none,
    Option.getD_none, sortStrings_singleton, strAppendEmpty, strEmptyAppend]
  simp [strAppendAssoc, strAppendEmpty, strEmptyAppend, sortStrings_singleton,
    strJoinCons, strJoinNil]

/-- C4: a host with a non-empty name and an empty `Groups` list is rendered
under the `[default]` section and is never omitted (the whole output is
exactly that one section); with `Groups = ["web"]` its line is rendered
under `[web]` and under no other section. -/
theorem claim_c4_default_group_fallback (name : String) (vars : List (String × String))
    (hn : name ≠ "") :
    buildInventoryFileContent [⟨name, [], vars⟩] []
        = ("[default]\n" ++ (formatInventoryHostLine name vars ++ "\n") ++ "\n", []) ∧
    buildInventoryFileContent [⟨name, ["web"], vars⟩] []
        = ("[web]\n" ++ (formatInventoryHostLine name vars ++ "\n") ++ "\n", []) := by
  constructor
  · have h1 := singleHostState name vars [] "default" hn rfl (by decide)
    have h2 := renderSingle "default" (formatInventoryHostLine name vars)
    simp only [buildInventoryFileContent, h1, h2]
    simp [strAppendAssoc]
  · have h1 := singleHostState name vars ["web"] "web" hn rfl (by decide)
    have h2 := renderSingle "web" (formatInventoryHostLine name vars)
    simp only [buildInventoryFileContent, h1, h2]
    simp [strAppendAssoc]

/-- Witness for C4 at the host name `node1` with no variables. -/
theorem claim_c4_default_group_fallback_witness :
    ("node1" : String) ≠ "" ∧
    buildInventoryFileContent [⟨"node1", [], []⟩] []
      = ("[default]\n" ++ (formatInventoryHostLine "node1" [] ++ "\n") ++ "\n", []) :=
  ⟨by decide, (claim_c4_default_group_fallback "node1" [] (by decide)).1⟩


theorem hexVal_hexDigitChar : ∀ m : Nat, m < 16 → hexVal (hexDigitChar m) = some m := by
  decide

theorem escQuoteChar_cases (n : Nat) (l : List Char) (h : escQuoteChar n = some l) :
    l.length = 2 := by
  unfold escQuoteChar at h
  split_ifs at h <;> simp only [Option.some.injEq] at h <;> try subst h
  all_goals simp_all

theorem quoteChar_pos (p : Char → Bool) (c : Char) : 0 < (quoteChar p c).length := by
  unfold quoteChar
  by_cases h1 : c = '"' ∨ c = '\\'
  · rw [if_pos h1]
    simp
  · rw [if_neg h1]
    by_cases h2 : goIsPrint p c = true
    · rw [if_pos h2]
      simp
    · rw [if_neg h2]
      cases hesc : escQuoteChar c.toNat with
      | some esc =>
        simp only [hesc]
        have := escQuoteChar_cases _ _ hesc
        omega
      | none =>
        simp only [hesc]
        split_ifs <;> simp

theorem quoted_length_bound (p : Char → Bool) :
    ∀ s : List Char, s.length + 1 ≤ (s.flatMap (quoteChar p) ++ ['"']).length := by
  intro s
  induction s with
  | nil => simp
  | cons c t ih =>
    have := quoteChar_pos p c
    simp only [List.flatMap_cons, List.length_append, List.length_cons] at *
    omega

theorem parseHex2_digits (d1 d2 : Char) (T : List Char) (v1 v2 : Nat)
    (h1 : hexVal d1 = some v1) (h2 : hexVal d2 = some v2) :
    parseHex2 (d1 :: d2 :: T) = some (16 * v1 + v2, T) := by
  have hstep : parseHex2 (d1 :: d2 :: T)
      = (match hexVal d1, hexVal d2 with
         | some w1, some w2 => some (16 * w1 + w2, T)
         | _, _ => none) := rfl
  rw [hstep, h1, h2]

theorem parseHex4_digits (d1 d2 d3 d4 : Char) (T : List Char) (v1 v2 v3 v4 : Nat)
    (h1 : hexVal d1 = some v1) (h2 : hexVal d2 = some v2)
    (h3 : hexVal d3 = some v3) (h4 : hexVal d4 = some v4) :
    parseHex4 (d1 :: d2 :: d3 :: d4 :: T)
      = some ((((16 * v1 + v2) * 16 + v3) * 16 + v4), T) := by
  have hstep : parseHex4 (d1 :: d2 :: d3 :: d4 :: T)
      = (match hexVal d1, hexVal d2, hexVal d3, hexVal d4 with
         | some w1, some w2, some w3, some w4 =>
           some ((((16 * w1 + w2) * 16 + w3) * 16 + w4), T)
         | _, _, _, _ => none) := rfl
  rw [hstep, h1, h2, h3, h4]

theorem parseHex8_digits (d1 d2 d3 d4 d5 d6 d7 d8 : Char) (T : List Char)
    (v1 v2 v3 v4 v5 v6 v7 v8 : Nat)
    (h1 : hexVal d1 = some v1) (h2 : hexVal d2 = some v2)
    (h3 : hexVal d3 = some v3) (h4 : hexVal d4 = some v4)
    (h5 : hexVal d5 = some v5) (h6 : hexVal d6 = some v6)
    (h7 : hexVal d7 = some v7) (h8 : hexVal d8 = some v8) :
    parseHex8 (d1 :: d2 :: d3 :: d4 :: d5 :: d6 :: d7 :: d8 :: T)
      = some ((((((((16 * v1 + v2) * 16 + v3) * 16 + v4) * 16 + v5) *
          16 + v6) * 16 + v7) * 16 + v8), T) := by
  have hstep : parseHex8 (d1 :: d2 :: d3 :: d4 :: d5 :: d6 :: d7 :: d8 :: T)
      = (match hexVal d1, hexVal d2, hexVal d3, hexVal d4,
            hexVal d5, hexVal d6, hexVal d7, hexVal d8 with
         | some w1, some w2, some w3, some w4, some w5, some w6, some w7, some w8 =>
           some ((((((((16 * w1 + w2) * 16 + w3) * 16 + w4) * 16 + w5) *
             16 + w6) * 16 + w7) * 16 + w8), T)
         | _, _, _, _, _, _, _, _ => none) := rfl
  rw [hstep, h1, h2, h3, h4, h5, h6, h7, h8]

theorem parseEscape_cons (e : Char) (T : List Char) :
    parseEscape (e :: T)
      = (if e = 'x' then (parseHex2 T).map (fun pr => (Char.ofNat pr.1, pr.2))
         else if e = 'u' then (parseHex4 T).map (fun pr => (Char.ofNat pr.1, pr.2))
         else if e = 'U' then (parseHex8 T).map (fun pr => (Char.ofNat pr.1, pr.2))
         else (escUnquoteChar e).map (fun c => (c, T))) := rfl

theorem unquoteBodyF_step_quoteChar (p : Char → Bool) (c : Char) (T : List Char) (f : Nat) :
    unquoteBodyF (f + 1) (quoteChar p c ++ T) = (unquoteBodyF f T).map (fun t => c :: t) := by
  by_cases hq : c = '"' ∨ c = '\\'
  · rcases hq with h | h <;> subst h <;> rfl
  · push_neg at hq
    obtain ⟨h1, h2⟩ := hq
    have hor : ¬(c = '"' ∨ c = '\\') := not_or.mpr ⟨h1, h2⟩
    by_cases hp : goIsPrint p c = true
    · have hqc : quoteChar p c = [c] := by
        unfold quoteChar
        rw [if_neg hor, if_pos hp]
      rw [hqc, List.singleton_append, unquoteBodyF.eq_3, if_neg h1, if_neg h2]
    · have hnp : ¬(goIsPrint p c = true) := hp
      by_cases hs7 : c.toNat = 7
      · have hqc : quoteChar p c = ['\\', 'a'] := by
          unfold quoteChar
          rw [if_neg hor, if_neg hnp, hs7]
          rfl
        have hc : Char.ofNat 7 = c := by rw [← hs7, Char.ofNat_toNat]
        rw [hqc, ← hc]
        rfl
      · by_cases hs8 : c.toNat = 8
        · have hqc : quoteChar p c = ['\\', 'b'] := by
            unfold quoteChar
            rw [if_neg hor, if_neg hnp, hs8]
            rfl
          have hc : Char.ofNat 8 = c := by rw [← hs8, Char.ofNat_toNat]
          rw [hqc, ← hc]
          rfl
        · by_cases hs12 : c.toNat = 12
          · have hqc : quoteChar p c = ['\\', 'f'] := by
              unfold quoteChar
              rw [if_neg hor, if_neg hnp, hs12]
              rfl
            have hc : Char.ofNat 12 = c := by rw [← hs12, Char.ofNat_toNat]
            rw [hqc, ← hc]
            rfl
          · by_cases hs10 : c.toNat = 10
            · have hqc : quoteChar p c = ['\\', 'n'] := by
                unfold quoteChar
                rw [if_neg hor, if_neg hnp, hs10]
                rfl
              have hc : Char.ofNat 10 = c := by rw [← hs10, Char.ofNat_toNat]
              rw [hqc, ← hc]
              rfl
            · by_cases hs13 : c.toNat = 13
              · have hqc : quoteChar p c = ['\\', 'r'] := by
                  unfold quoteChar
                  rw [if_neg hor, if_neg hnp, hs13]
                  rfl
                have hc : Char.ofNat 13 = c := by rw [← hs13, Char.ofNat_toNat]
                rw [hqc, ← hc]
                rfl
              · by_cases hs9 : c.toNat = 9
                · have hqc : quoteChar p c = ['\\', 't'] := by
                    unfold quoteChar
                    rw [if_neg hor, if_neg hnp, hs9]
                    rfl
                  have hc : Char.ofNat 9 = c := by rw [← hs9, Char.ofNat_toNat]
                  rw [hqc, ← hc]
                  rfl
                · by_cases hs11 : c.toNat = 11
                  · have hqc : quoteChar p c = ['\\', 'v'] := by
                      unfold quoteChar
                      rw [if_neg hor, if_neg hnp, hs11]
                      rfl
                    have hc : Char.ofNat 11 = c := by rw [← hs11, Char.ofNat_toNat]
                    rw [hqc, ← hc]
                    rfl
                  · have hesc : escQuoteChar c.toNat = none := by
                      unfold escQuoteChar
                      rw [if_neg hs7, if_neg hs8, if_neg hs12, if_neg hs10, if_neg hs13,
                        if_neg hs9, if_neg hs11]
                    by_cases hx : c.toNat < 32 ∨ c.toNat = 127
                    · have hb : c.toNat < 256 := by omega
                      have hqc : quoteChar p c = '\\' :: 'x' ::
                          [hexDigitChar (c.toNat / 16), hexDigitChar (c.toNat % 16)] := by
                        unfold quoteChar
                        rw [if_neg hor, if_neg hnp]
                        simp only [hesc, if_pos hx]
                      have hpe : parseEscape ('x' :: hexDigitChar (c.toNat / 16) ::
                          hexDigitChar (c.toNat % 16) :: T) = some (c, T) := by
                        rw [parseEscape_cons, if_pos rfl,
                          parseHex2_digits _ _ _ _ _
                            (hexVal_hexDigitChar _ (by omega)) (hexVal_hexDigitChar _ (by omega))]
                        have harith : 16 * (c.toNat / 16) + c.toNat % 16 = c.toNat := by omega
                        simp only [Option.map_some', Option.map_some, harith, Char.ofNat_toNat]
                      rw [hqc]
                      show unquoteBodyF (f + 1) ('\\' :: 'x' :: hexDigitChar (c.toNat / 16) ::
                        hexDigitChar (c.toNat % 16) :: T) = _
                      rw [unquoteBodyF.eq_3, if_neg (by decide : ¬('\\' : Char) = '"'),
                        if_pos rfl, hpe]
                    · by_cases hu : c.toNat < 65536
                      · have hqc : quoteChar p c = '\\' :: 'u' ::
                            [hexDigitChar (c.toNat / 4096 % 16), hexDigitChar (c.toNat / 256 % 16),
                              hexDigitChar (c.toNat / 16 % 16), hexDigitChar (c.toNat % 16)] := by
                          unfold quoteChar
                          rw [if_neg hor, if_neg hnp]
                          simp only [hesc, if_neg hx, if_pos hu]
                        have hpe : parseEscape ('u' :: hexDigitChar (c.toNat / 4096 % 16) ::
                            hexDigitChar (c.toNat / 256 % 16) :: hexDigitChar (c.toNat / 16 % 16) ::
                            hexDigitChar (c.toNat % 16) :: T) = some (c, T) := by
                          rw [parseEscape_cons, if_neg (by decide : ¬('u' : Char) = 'x'),
                            if_pos rfl,
                            parseHex4_digits _ _ _ _ _ _ _ _ _
                              (hexVal_hexDigitChar _ (by omega)) (hexVal_hexDigitChar _ (by omega))
                              (hexVal_hexDigitChar _ (by omega)) (hexVal_hexDigitChar _ (by omega))]
                          have harith : ((16 * (c.toNat / 4096 % 16) + c.toNat / 256 % 16) * 16 +
                              c.toNat / 16 % 16) * 16 + c.toNat % 16 = c.toNat := by omega
                          simp only [Option.map_some', Option.map_some, harith, Char.ofNat_toNat]
                        rw [hqc]
                        show unquoteBodyF (f + 1) ('\\' :: 'u' :: hexDigitChar (c.toNat / 4096 % 16) ::
                          hexDigitChar (c.toNat / 256 % 16) :: hexDigitChar (c.toNat / 16 % 16) ::
                          hexDigitChar (c.toNat % 16) :: T) = _
                        rw [unquoteBodyF.eq_3, if_neg (by decide : ¬('\\' : Char) = '"'),
                          if_pos rfl, hpe]
                      · have hlt : c.toNat < 4294967296 := c.val.val.isLt
                        have hqc : quoteChar p c = '\\' :: 'U' ::
                            [hexDigitChar (c.toNat / 268435456 % 16), hexDigitChar (c.toNat / 16777216 % 16),
                              hexDigitChar (c.toNat / 1048576 % 16), hexDigitChar (c.toNat / 65536 % 16),
                              hexDigitChar (c.toNat / 4096 % 16), hexDigitChar (c.toNat / 256 % 16),
                              hexDigitChar (c.toNat / 16 % 16), hexDigitChar (c.toNat % 16)] := by
                          unfold quoteChar
                          rw [if_neg hor, if_neg hnp]
                          simp only [hesc, if_neg hx, if_neg hu]
                        have hpe : parseEscape ('U' :: hexDigitChar (c.toNat / 268435456 % 16) ::
                            hexDigitChar (c.toNat / 16777216 % 16) :: hexDigitChar (c.toNat / 1048576 % 16) ::
                            hexDigitChar (c.toNat / 65536 % 16) :: hexDigitChar (c.toNat / 4096 % 16) ::
                            hexDigitChar (c.toNat / 256 % 16) :: hexDigitChar (c.toNat / 16 % 16) ::
                            hexDigitChar (c.toNat % 16) :: T) = some (c, T) := by
                          rw [parseEscape_cons, if_neg (by decide : ¬('U' : Char) = 'x'),
                            if_neg (by decide : ¬('U' : Char) = 'u'), if_pos rfl,
                            parseHex8_digits _ _ _ _ _ _ _ _ _ _ _ _ _ _ _ _ _
                              (hexVal_hexDigitChar _ (by omega)) (hexVal_hexDigitChar _ (by omega))
                              (hexVal_hexDigitChar _ (by omega)) (hexVal_hexDigitChar _ (by omega))
                              (hexVal_hexDigitChar _ (by omega)) (hexVal_hexDigitChar _ (by omega))
                              (hexVal_hexDigitChar _ (by omega)) (hexVal_hexDigitChar _ (by omega))]
                          have harith : ((((((16 * (c.toNat / 268435456 % 16) + c.toNat / 16777216 % 16) * 16 +
                              c.toNat / 1048576 % 16) * 16 + c.toNat / 65536 % 16) * 16 +
                              c.toNat / 4096 % 16) * 16 + c.toNat / 256 % 16) * 16 +
                              c.toNat / 16 % 16) * 16 + c.toNat % 16 = c.toNat := by omega
                          simp only [Option.map_some', Option.map_some, harith, Char.ofNat_toNat]
                        rw [hqc]
                        show unquoteBodyF (f + 1) ('\\' :: 'U' :: hexDigitChar (c.toNat / 268435456 % 16) ::
                          hexDigitChar (c.toNat / 16777216 % 16) :: hexDigitChar (c.toNat / 1048576 % 16) ::
                          hexDigitChar (c.toNat / 65536 % 16) :: hexDigitChar (c.toNat / 4096 % 16) ::
                          hexDigitChar (c.toNat / 256 % 16) :: hexDigitChar (c.toNat / 16 % 16) ::
                          hexDigitChar (c.toNat % 16) :: T) = _
                        rw [unquoteBodyF.eq_3, if_neg (by decide : ¬('\\' : Char) = '"'),
                          if_pos rfl, hpe]

theorem unquoteBodyF_quoted (p : Char → Bool) :
    ∀ (s : List Char) (f : Nat), s.length + 1 ≤ f →
      unquoteBodyF f (s.flatMap (quoteChar p) ++ ['"']) = some s := by
  intro s
  induction s with
  | nil =>
    intro f hf
    obtain ⟨g, rfl⟩ : ∃ g, f = g + 1 := ⟨f - 1, by omega⟩
    rfl
  | cons c t ih =>
    intro f hf
    obtain ⟨g, rfl⟩ : ∃ g, f = g + 1 := ⟨f - 1, by omega⟩
    rw [List.flatMap_cons, List.append_assoc, unquoteBodyF_step_quoteChar,
      ih g (by simp only [List.length_cons] at hf; omega)]
    rfl

theorem goQuote_roundtrip (p : Char → Bool) (s : String) :
    goUnquote (goQuoteWith p s) = some s := by
  obtain ⟨d⟩ := s
  have hmain := unquoteBodyF_quoted p d ((d.flatMap (quoteChar p) ++ ['"']).length)
    (quoted_length_bound p d)
  show goUnquote ⟨'"' :: (d.flatMap (quoteChar p) ++ ['"'])⟩ = some ⟨d⟩
  have hg : goUnquote ⟨'"' :: (d.flatMap (quoteChar p) ++ ['"'])⟩
      = (unquoteBody (d.flatMap (quoteChar p) ++ ['"'])).map (fun l => (⟨l⟩ : String)) := rfl
  rw [hg, unquoteBody, hmain]
  rfl

/-- C7: variable quoting round-trip.  The first conjunct is the round-trip
for `strconv.Quote` with ANY printability classification of the non-ASCII
range (hence in particular for the real table); the second instantiates it
for the `strconvQuote` the formatters call; the last two show that the text
emitted after `key=` in host lines and `:vars` blocks is exactly
`strconvQuote` of the variable value, so un-quoting recovers the value. -/
theorem claim_c7_variable_quoting_roundtrip :
    (∀ (p : Char → Bool) (s : String), goUnquote (goQuoteWith p s) = some s) ∧
    (∀ s : String, goUnquote (strconvQuote s) = some s) ∧
    (∀ hostname key value : String,
      formatInventoryHostLine hostname [(key, value)]
        = hostname ++ (" " ++ key ++ "=" ++ strconvQuote value)) ∧
    (∀ key value : String,
      formatInventoryVariables [(key, value)] = key ++ "=" ++ strconvQuote value ++ "\n") := by
  refine ⟨goQuote_roundtrip, fun s => goQuote_roundtrip unicodePrintable s, ?_, ?_⟩
  · intro hostname key value
    simp [formatInventoryHostLine, varKeys, varGetD, List.find?, sortStrings_singleton,
      strJoinCons, strJoinNil, strAppendEmpty, strAppendAssoc]
  · intro key value
    simp [formatInventoryVariables, varKeys, varGetD, List.find?, sortStrings_singleton,
      strJoinCons, strJoinNil, strAppendEmpty, strAppendAssoc]

theorem mem_insertName (ns : List String) (g a : String) :
    a ∈ insertName ns g ↔ a ∈ ns ∨ a = g := by
  unfold insertName
  split_ifs with h
  · constructor
    · exact Or.inl
    · rintro (h1 | rfl)
      · exact h1
      · exact h
  · simp [List.mem_append]

theorem nodup_insertName (ns : List String) (g : String) (h : ns.Nodup) :
    (insertName ns g).Nodup := by
  unfold insertName
  split_ifs with hmem
  · exact h
  · simp [List.nodup_append, h, hmem]

theorem mapGet_cons {α : Type} (p : String × α) (rest : List (String × α)) (g : String) :
    mapGet (p :: rest) g = if p.1 = g then some p.2 else mapGet rest g := by
  unfold mapGet
  by_cases h : p.1 = g
  · rw [List.find?_cons_of_pos _ (by simp [h]), if_pos h]
    rfl
  · rw [List.find?_cons_of_neg _ (by simp [h]), if_neg h]

theorem mapGet_mapSet_ne {α : Type} (m : List (String × α)) (k : String) (v : α)
    (g : String) (h : k ≠ g) : mapGet (mapSet m k v) g = mapGet m g := by
  induction m with
  | nil =>
    rw [show mapSet [] k v = [(k, v)] from rfl, mapGet_cons, if_neg h]
  | cons p rest ih =>
    unfold mapSet
    split_ifs with hp
    · rw [mapGet_cons, mapGet_cons, if_neg h, if_neg (by rw [hp]; exact h)]
    · rw [mapGet_cons, mapGet_cons, ih]

theorem addHost_vars (line : String) (st : BuildState) (g : String) :
    (addHostToGroup line st g).groupVars = st.groupVars := by
  unfold addHostToGroup
  split_ifs <;> rfl

theorem addHost_children (line : String) (st : BuildState) (g : String) :
    (addHostToGroup line st g).groupChildren = st.groupChildren := by
  unfold addHostToGroup
  split_ifs <;> rfl

theorem addHost_names_mono (line : String) (st : BuildState) (g a : String)
    (h : a ∈ st.groupNames) : a ∈ (addHostToGroup line st g).groupNames := by
  unfold addHostToGroup
  split_ifs
  · exact h
  · exact (mem_insertName _ _ _).mpr (Or.inl h)

theorem addHost_names_self (line : String) (st : BuildState) (g : String) (hg : g ≠ "") :
    g ∈ (addHostToGroup line st g).groupNames := by
  unfold addHostToGroup
  rw [if_neg hg]
  exact (mem_insertName _ _ _).mpr (Or.inr rfl)

theorem addHost_nodup (line : String) (st : BuildState) (g : String)
    (h : st.groupNames.Nodup) : (addHostToGroup line st g).groupNames.Nodup := by
  unfold addHostToGroup
  split_ifs
  · exact h
  · exact nodup_insertName _ _ h

theorem foldAdd_vars (line : String) :
    ∀ (gs : List String) (st : BuildState),
      (gs.foldl (addHostToGroup line) st).groupVars = st.groupVars := by
  intro gs
  induction gs with
  | nil => intro st; rfl
  | cons g rest ih => intro st; rw [List.foldl_cons, ih, addHost_vars]

theorem foldAdd_children (line : String) :
    ∀ (gs : List String) (st : BuildState),
      (gs.foldl (addHostToGroup line) st).groupChildren = st.groupChildren := by
  intro gs
  induction gs with
  | nil => intro st; rfl
  | cons g rest ih => intro st; rw [List.foldl_cons, ih, addHost_children]

theorem foldAdd_names_mono (line : String) :
    ∀ (gs : List String) (st : BuildState) (a : String), a ∈ st.groupNames →
      a ∈ (gs.foldl (addHostToGroup line) st).groupNames := by
  intro gs
  induction gs with
  | nil => intro st a h; exact h
  | cons g rest ih =>
    intro st a h
    rw [List.foldl_cons]
    exact ih _ _ (addHost_names_mono _ _ _ _ h)

theorem foldAdd_names_mem (line : String) :
    ∀ (gs : List String) (st : BuildState) (g : String), g ∈ gs → g ≠ "" →
      g ∈ (gs.foldl (addHostToGroup line) st).groupNames := by
  intro gs
  induction gs with
  | nil => intro st g h; exact absurd h (List.not_mem_nil g)
  | cons x rest ih =>
    intro st g h hg
    rw [List.foldl_cons]
    rcases List.mem_cons.mp h with rfl | hmem
    · exact foldAdd_names_mono _ _ _ _ (addHost_names_self _ _ _ hg)
    · exact ih _ _ hmem hg

theorem foldAdd_nodup (line : String) :
    ∀ (gs : List String) (st : BuildState), st.groupNames.Nodup →
      (gs.foldl (addHostToGroup line) st).groupNames.Nodup := by
  intro gs
  induction gs with
  | nil => intro st h; exact h
  | cons g rest ih => intro st h; exact ih _ (addHost_nodup _ _ _ h)

theorem hostStepState_vars (st : BuildState) (h : InventoryHost) :
    (hostStepState st h).groupVars = st.groupVars := by
  unfold hostStepState
  split_ifs
  · rfl
  · exact foldAdd_vars _ _ _

theorem hostStepState_children (st : BuildState) (h : InventoryHost) :
    (hostStepState st h).groupChildren = st.groupChildren := by
  unfold hostStepState
  split_ifs
  · rfl
  · exact foldAdd_children _ _ _

theorem hostStepState_names_mono (st : BuildState) (h : InventoryHost) (a : String)
    (ha : a ∈ st.groupNames) : a ∈ (hostStepState st h).groupNames := by
  unfold hostStepState
  split_ifs
  · exact ha
  · exact foldAdd_names_mono _ _ _ _ ha

theorem hostStepState_names_mem (st : BuildState) (h : InventoryHost) (g : String)
    (hn : h.Name ≠ "") (hgg : g ∈ h.Groups) (hg : g ≠ "") :
    g ∈ (hostStepState st h).groupNames := by
  unfold hostStepState
  rw [if_neg hn]
  apply foldAdd_names_mem
  · unfold hostGroupsOf
    rw [if_neg (List.ne_nil_of_mem hgg)]
    exact hgg
  · exact hg

theorem hostStepState_nodup (st : BuildState) (h : InventoryHost)
    (hd : st.groupNames.Nodup) : (hostStepState st h).groupNames.Nodup := by
  unfold hostStepState
  split_ifs
  · exact hd
  · exact foldAdd_nodup _ _ _ hd

theorem foldH_vars :
    ∀ (hosts : List InventoryHost) (st : BuildState),
      (hosts.foldl hostStepState st).groupVars = st.groupVars := by
  intro hosts
  induction hosts with
  | nil => intro st; rfl
  | cons h rest ih => intro st; rw [List.foldl_cons, ih, hostStepState_vars]

theorem foldH_children :
    ∀ (hosts : List InventoryHost) (st : BuildState),
      (hosts.foldl hostStepState st).groupChildren = st.groupChildren := by
  intro hosts
  induction hosts with
  | nil => intro st; rfl
  | cons h rest ih => intro st; rw [List.foldl_cons, ih, hostStepState_children]

theorem foldH_names_mono :
    ∀ (hosts : List InventoryHost) (st : BuildState) (a : String), a ∈ st.groupNames →
      a ∈ (hosts.foldl hostStepState st).groupNames := by
  intro hosts
  induction hosts with
  | nil => intro st a h; exact h
  | cons h rest ih =>
    intro st a ha
    rw [List.foldl_cons]
    exact ih _ _ (hostStepState_names_mono _ _ _ ha)

theorem foldH_names_mem :
    ∀ (hosts : List InventoryHost) (st : BuildState) (h : InventoryHost) (g : String),
      h ∈ hosts → h.Name ≠ "" → g ∈ h.Groups → g ≠ "" →
      g ∈ (hosts.foldl hostStepState st).groupNames := by
  intro hosts
  induction hosts with
  | nil => intro st h g hmem; exact absurd hmem (List.not_mem_nil h)
  | cons x rest ih =>
    intro st h g hmem hn hgg hg
    rw [List.foldl_cons]
    rcases List.mem_cons.mp hmem with rfl | hmem2
    · exact foldH_names_mono _ _ _ (hostStepState_names_mem _ _ _ hn hgg hg)
    · exact ih _ _ _ hmem2 hn hgg hg

theorem foldH_nodup :
    ∀ (hosts : List InventoryHost) (st : BuildState), st.groupNames.Nodup →
      (hosts.foldl hostStepState st).groupNames.Nodup := by
  intro hosts
  induction hosts with
  | nil => intro st h; exact h
  | cons h rest ih => intro st hd; exact ih _ (hostStepState_nodup _ _ hd)

theorem groupStepState_names_mono (st : BuildState) (gr : InventoryGroup) (a : String)
    (ha : a ∈ st.groupNames) : a ∈ (groupStepState st gr).groupNames := by
  unfold groupStepState
  split_ifs <;> simp_all [mem_insertName]

theorem groupStepState_names_self (st : BuildState) (gr : InventoryGroup)
    (hn : gr.Name ≠ "") : gr.Name ∈ (groupStepState st gr).groupNames := by
  unfold groupStepState
  split_ifs <;> simp_all [mem_insertName]

theorem groupStepState_nodup (st : BuildState) (gr : InventoryGroup)
    (hd : st.groupNames.Nodup) : (groupStepState st gr).groupNames.Nodup := by
  unfold groupStepState
  split_ifs <;> simp_all [nodup_insertName]

theorem groupStepState_vars_ne (st : BuildState) (gr : InventoryGroup) (g : String)
    (hne : gr.Name ≠ g) :
    mapGet (groupStepState st gr).groupVars g = mapGet st.groupVars g := by
  unfold groupStepState
  split_ifs <;> simp_all [mapGet_mapSet_ne _ _ _ _ hne]

theorem groupStepState_children_ne (st : BuildState) (gr : InventoryGroup) (g : String)
    (hne : gr.Name ≠ g) :
    mapGet (groupStepState st gr).groupChildren g = mapGet st.groupChildren g := by
  unfold groupStepState
  split_ifs <;> simp_all [mapGet_mapSet_ne _ _ _ _ hne]

theorem foldG_names_mono :
    ∀ (groups : List InventoryGroup) (st : BuildState) (a : String), a ∈ st.groupNames →
      a ∈ (groups.foldl groupStepState st).groupNames := by
  intro groups
  induction groups with
  | nil => intro st a h; exact h
  | cons gr rest ih =>
    intro st a ha
    rw [List.foldl_cons]
    exact ih _ _ (groupStepState_names_mono _ _ _ ha)

theorem foldG_names_mem :
    ∀ (groups : List InventoryGroup) (st : BuildState) (gr : InventoryGroup),
      gr ∈ groups → gr.Name ≠ "" →
      gr.Name ∈ (groups.foldl groupStepState st).groupNames := by
  intro groups
  induction groups with
  | nil => intro st gr hmem; exact absurd hmem (List.not_mem_nil gr)
  | cons x rest ih =>
    intro st gr hmem hn
    rw [List.foldl_cons]
    rcases List.mem_cons.mp hmem with rfl | hmem2
    · exact foldG_names_mono _ _ _ (groupStepState_names_self _ _ hn)
    · exact ih _ _ hmem2 hn

theorem foldG_nodup :
    ∀ (groups : List InventoryGroup) (st : BuildState), st.groupNames.Nodup →
      (groups.foldl groupStepState st).groupNames.Nodup := by
  intro groups
  induction groups with
  | nil => intro st h; exact h
  | cons gr rest ih => intro st hd; exact ih _ (groupStepState_nodup _ _ hd)

theorem foldG_vars_none :
    ∀ (groups : List InventoryGroup) (st : BuildState) (g : String),
      (∀ gr ∈ groups, gr.Name ≠ g) →
      mapGet (groups.foldl groupStepState st).groupVars g = mapGet st.groupVars g := by
  intro groups
  induction groups with
  | nil => intro st g _; rfl
  | cons gr rest ih =>
    intro st g hno
    rw [List.foldl_cons, ih _ _ (fun x hx => hno x (List.mem_cons_of_mem gr hx)),
      groupStepState_vars_ne _ _ _ (hno gr (List.mem_cons_self gr rest))]

theorem foldG_children_none :
    ∀ (groups : List InventoryGroup) (st : BuildState) (g : String),
      (∀ gr ∈ groups, gr.Name ≠ g) →
      mapGet (groups.foldl groupStepState st).groupChildren g = mapGet st.groupChildren g := by
  intro groups
  induction groups with
  | nil => intro st g _; rfl
  | cons gr rest ih =>
    intro st g hno
    rw [List.foldl_cons, ih _ _ (fun x hx => hno x (List.mem_cons_of_mem gr hx)),
      groupStepState_children_ne _ _ _ (hno gr (List.mem_cons_self gr rest))]

theorem processGroups_fst :
    ∀ (groups : List InventoryGroup) (acc : BuildState × List Diagnostic),
      (groups.foldl groupStep acc).1 = groups.foldl groupStepState acc.1 := by
  intro groups
  induction groups with
  | nil => intro acc; rfl
  | cons gr rest ih => intro acc; rw [List.foldl_cons, List.foldl_cons, ih]; rfl

theorem processHosts_fst :
    ∀ (hosts : List InventoryHost) (acc : BuildState × List Diagnostic),
      (hosts.foldl hostStep acc).1 = hosts.foldl hostStepState acc.1 := by
  intro hosts
  induction hosts with
  | nil => intro acc; rfl
  | cons h rest ih => intro acc; rw [List.foldl_cons, List.foldl_cons, ih]; rfl

theorem finalState_eq (hosts : List InventoryHost) (groups : List InventoryGroup) :
    finalState hosts groups
      = hosts.foldl hostStepState (groups.foldl groupStepState emptyState) := by
  unfold finalState processHosts processGroups
  rw [processHosts_fst, processGroups_fst]

theorem finalState_names_nodup (hosts : List InventoryHost) (groups : List InventoryGroup) :
    (finalState hosts groups).groupNames.Nodup := by
  rw [finalState_eq]
  exact foldH_nodup _ _ (foldG_nodup _ _ List.nodup_nil)

theorem varsBlock_none (st : BuildState) (g : String)
    (h : mapGet st.groupVars g = none) : varsBlock st g = "" := by
  unfold varsBlock
  rw [h]

theorem childrenBlock_none (st : BuildState) (g : String)
    (h : mapGet st.groupChildren g = none) : childrenBlock st g = "" := by
  unfold childrenBlock
  rw [h]

/-- C5: every non-empty group name either declared by a group record (of a
non-empty name) or referenced by a named host's membership receives exactly
one `[<group>]` heading in the rendered group-name list; a group that is
only referenced, with no matching record, has no stored variables or
children, so its `:vars` and `:children` blocks are both empty. -/
theorem claim_c5_union_of_declared_and_referenced (hosts : List InventoryHost)
    (groups : List InventoryGroup) (g : String) (hg : g ≠ "")
    (hmem : (∃ gr ∈ groups, gr.Name = g) ∨ (∃ h ∈ hosts, h.Name ≠ "" ∧ g ∈ h.Groups)) :
    List.count g (sortStrings (finalState hosts groups).groupNames) = 1 ∧
    ((∀ gr ∈ groups, gr.Name ≠ g) →
      mapGet (finalState hosts groups).groupVars g = none ∧
      mapGet (finalState hosts groups).groupChildren g = none ∧
      varsBlock (finalState hosts groups) g = "" ∧
      childrenBlock (finalState hosts groups) g = "") := by
  constructor
  · have hmem2 : g ∈ (finalState hosts groups).groupNames := by
      rw [finalState_eq]
      rcases hmem with ⟨gr, hgr, rfl⟩ | ⟨h, hh, hn, hgg⟩
      · exact foldH_names_mono _ _ _ (foldG_names_mem _ _ _ hgr hg)
      · exact foldH_names_mem _ _ _ _ hh hn hgg hg
    have hnd : (sortStrings (finalState hosts groups).groupNames).Nodup :=
      ((sortStrings_perm _).nodup_iff).mpr (finalState_names_nodup hosts groups)
    exact List.count_eq_one_of_mem hnd (((sortStrings_perm _).mem_iff).mpr hmem2)
  · intro hno
    have hv : mapGet (finalState hosts groups).groupVars g = none := by
      rw [finalState_eq, foldH_vars, foldG_vars_none _ _ _ hno]
      rfl
    have hc : mapGet (finalState hosts groups).groupChildren g = none := by
      rw [finalState_eq, foldH_children, foldG_children_none _ _ _ hno]
      rfl
    exact ⟨hv, hc, varsBlock_none _ _ hv, childrenBlock_none _ _ hc⟩

/-- Witness for C5: the group `web`, referenced only by the host `node1`. -/
theorem claim_c5_union_of_declared_and_referenced_witness :
    ("web" : String) ≠ "" ∧
    List.count "web" (sortStrings (finalState [⟨"node1", ["web"], []⟩] []).groupNames) = 1 ∧
    varsBlock (finalState [⟨"node1", ["web"], []⟩] []) "web" = "" ∧
    childrenBlock (finalState [⟨"node1", ["web"], []⟩] []) "web" = "" := by
  have h := claim_c5_union_of_declared_and_referenced [⟨"node1", ["web"], []⟩] [] "web"
    (by decide)
    (Or.inr ⟨⟨"node1", ["web"], []⟩, List.mem_cons_self _ _, by decide, by decide⟩)
  have h2 := h.2 (by intro gr hgr; exact absurd hgr (List.not_mem_nil gr))
  exact ⟨by decide, h.1, h2.2.2.1, h2.2.2.2⟩

theorem varKeys_nodup (vars : List (String × String)) : (varKeys vars).Nodup :=
  List.nodup_dedup _

/-- C3: the rendered output is globally sorted.  The group-name list the
renderer iterates over is sorted (strictly, since it has no duplicates) and
the output is its concatenated sections; within a section the host lines
are rendered in sorted order with a blank line after them; a `:vars` block
renders its keys in sorted order and is emitted only when the group has at
least one variable, with a blank line after it; a `:children` block renders
its children sorted, is emitted only when non-empty and ends with a blank
line.  Finally, the hosts `b` and `a` of group `g` are listed `a` first. -/
theorem claim_c3_rendering_sorted_and_blocks :
    (∀ (hosts : List InventoryHost) (groups : List InventoryGroup),
      List.Sorted strLe (sortStrings (finalState hosts groups).groupNames) ∧
      (sortStrings (finalState hosts groups).groupNames).Nodup ∧
      (buildInventoryFileContent hosts groups).1
        = String.join ((sortStrings (finalState hosts groups).groupNames).map
            (renderSection (finalState hosts groups)))) ∧
    (∀ (st : BuildState) (g : String),
      List.Sorted strLe (sortStrings ((mapGet st.groupHosts g).getD [])) ∧
      renderSection st g
        = "[" ++ g ++ "]\n" ++ hostBlock st g ++ varsBlock st g ++ childrenBlock st g ∧
      hostBlock st g = String.join ((sortStrings ((mapGet st.groupHosts g).getD [])).map
        (fun l => l ++ "\n")) ++ "\n") ∧
    (∀ vars : List (String × String),
      List.Sorted strLe (sortStrings (varKeys vars)) ∧
      (sortStrings (varKeys vars)).Nodup ∧
      formatInventoryVariables vars = String.join ((sortStrings (varKeys vars)).map
        (fun key => key ++ "=" ++ strconvQuote (varGetD vars key) ++ "\n"))) ∧
    (∀ (st : BuildState) (g : String), mapGet st.groupVars g = none → varsBlock st g = "") ∧
    (∀ (st : BuildState) (g : String) (vars : List (String × String)),
      mapGet st.groupVars g = some vars → vars ≠ [] →
      varsBlock st g = "[" ++ g ++ ":vars]\n" ++ formatInventoryVariables vars ++ "\n") ∧
    (∀ (st : BuildState) (g : String), mapGet st.groupChildren g = none →
      childrenBlock st g = "") ∧
    (∀ (st : BuildState) (g : String) (children : List String),
      mapGet st.groupChildren g = some children → children ≠ [] →
      List.Sorted strLe (sortStrings children) ∧
      childrenBlock st g = "[" ++ g ++ ":children]\n" ++
        String.join ((sortStrings children).map (fun c => c ++ "\n")) ++ "\n") ∧
    buildInventoryFileContent [⟨"b", ["g"], []⟩, ⟨"a", ["g"], []⟩] [] = ("[g]\na\nb\n\n", []) := by
  refine ⟨?_, ?_, ?_, varsBlock_none, ?_, childrenBlock_none, ?_, rfl⟩
  · intro hosts groups
    refine ⟨sortStrings_sorted _, ?_, rfl⟩
    exact ((sortStrings_perm _).nodup_iff).mpr (finalState_names_nodup hosts groups)
  · intro st g
    exact ⟨sortStrings_sorted _, rfl, rfl⟩
  · intro vars
    exact ⟨sortStrings_sorted _, ((sortStrings_perm _).nodup_iff).mpr (varKeys_nodup vars), rfl⟩
  · intro st g vars hsome hne
    unfold varsBlock
    rw [hsome]
    simp [hne]
  · intro st g children hsome hne
    refine ⟨sortStrings_sorted _, ?_⟩
    unfold childrenBlock
    rw [hsome]
    simp [hne]

/-- Witness for C3 at a concrete builder state with one variable and one
child stored for the group `web`. -/
theorem claim_c3_rendering_sorted_and_blocks_witness :
    mapGet (⟨["web"], [("web", ["node1"])], [("web", [("ansible_user", "deploy")])],
        [("web", ["child1"])]⟩ : BuildState).groupVars "web"
      = some [("ansible_user", "deploy")] ∧
    ([("ansible_user", "deploy")] : List (String × String)) ≠ [] ∧
    varsBlock ⟨["web"], [("web", ["node1"])], [("web", [("ansible_user", "deploy")])],
        [("web", ["child1"])]⟩ "web"
      = "[web:vars]\n" ++ formatInventoryVariables [("ansible_user", "deploy")] ++ "\n" ∧
    childrenBlock ⟨["web"], [("web", ["node1"])], [("web", [("ansible_user", "deploy")])],
        [("web", ["child1"])]⟩ "web"
      = "[web:children]\n" ++
        String.join ((sortStrings ["child1"]).map (fun c => c ++ "\n")) ++ "\n" :=
  ⟨rfl, by decide,
    claim_c3_rendering_sorted_and_blocks.2.2.2.2.1
      ⟨["web"], [("web", ["node1"])], [("web", [("ansible_user", "deploy")])],
        [("web", ["child1"])]⟩ "web" [("ansible_user", "deploy")] rfl (by decide),
    (claim_c3_rendering_sorted_and_blocks.2.2.2.2.2.2.1
      ⟨["web"], [("web", ["node1"])], [("web", [("ansible_user", "deploy")])],
        [("web", ["child1"])]⟩ "web" ["child1"] rfl (by decide)).2⟩
